import Mathlib

/-!
# Verification of the OpenNewsAgent pipeline

A shallow embedding of the core of the OpenNewsAgent repository
(news fetcher deduplication, AI analyzer chunking/sorting, and the
job manager's state table), together with theorems settling the
frozen specification claims.

Python dictionaries of article fields are modelled by the `Article`
structure: the two fields the verified code inspects (`link` and
`relevance`, both read with `dict.get` and hence possibly missing)
are `Option String`; all remaining pass-through fields (article_id,
title, description, keywords, category, reasoning, ...) are abstracted
into a single `payload` component that the verified code never reads.
Timestamps (`datetime.now()`, file mtimes) are modelled as natural
numbers supplied by the caller.
-/

/-- A news article record.  `link` models `article.get("link")`,
`relevance` models `article.get("relevance")`; `payload` abstracts all
other fields, which the verified operations pass through unchanged. -/
structure Article where
  link : Option String
  relevance : Option String
  payload : Nat
deriving Repr, DecidableEq

/-- `article.get("link", "")`: the link field with `""` as default for a
missing key (as in `news_fetcher.py`, line 99). -/
def linkStr (a : Article) : String := a.link.getD ""

/-- `NewsFetcher._remove_duplicates`, with the `seen_links` set made an
explicit accumulator (a list of links already seen).  An article is kept
iff its link is non-empty (`if link`) and not previously seen
(`link not in seen_links`); kept articles add their link to the set. -/
def removeDuplicatesAux : List String → List Article → List Article
  | _, [] => []
  | seen, a :: rest =>
    if linkStr a ≠ "" ∧ linkStr a ∉ seen then
      a :: removeDuplicatesAux (linkStr a :: seen) rest
    else
      removeDuplicatesAux seen rest

/-- `NewsFetcher._remove_duplicates(articles)` (news_fetcher.py 93-104):
starts with an empty `seen_links` set and an empty `unique` list. -/
def removeDuplicates (articles : List Article) : List Article :=
  removeDuplicatesAux [] articles

/-- Keep the first occurrence of each string, dropping later duplicates
(the order-of-first-occurrence deduplication realised by the fetcher's
`seen_links` set on the link strings themselves). -/
def dedupKeepFirstAux : List String → List String → List String
  | _, [] => []
  | seen, s :: rest =>
    if s ∈ seen then dedupKeepFirstAux seen rest
    else s :: dedupKeepFirstAux (s :: seen) rest

/-- First-occurrence deduplication of a list of strings. -/
def dedupKeepFirst (l : List String) : List String :=
  dedupKeepFirstAux [] l

example :
    removeDuplicates
      [⟨some "a", none, 0⟩, ⟨some "b", none, 1⟩, ⟨some "a", none, 2⟩] =
      [⟨some "a", none, 0⟩, ⟨some "b", none, 1⟩] := by decide

-- An article with a missing link is dropped by the code, not kept.
example : removeDuplicates [⟨none, none, 0⟩] = [] := by decide

example : dedupKeepFirst ["a", "b", "a", "c", "b"] = ["a", "b", "c"] := by decide

/-- The fetcher's deduplication output is a subsequence of its input. -/
theorem removeDuplicatesAux_sublist :
    ∀ (l : List Article) (seen : List String), (removeDuplicatesAux seen l).Sublist l
  | [], _ => List.Sublist.refl []
  | c :: rest, seen => by
    rw [removeDuplicatesAux]
    split_ifs with h
    · exact (removeDuplicatesAux_sublist rest _).cons₂ c
    · exact (removeDuplicatesAux_sublist rest seen).cons c

/-- The links of the deduplicated output are the first-occurrence
deduplication of the non-empty input links. -/
theorem map_linkStr_removeDuplicatesAux :
    ∀ (l : List Article) (seen : List String),
      (removeDuplicatesAux seen l).map linkStr =
        dedupKeepFirstAux seen ((l.map linkStr).filter (fun s => s ≠ ""))
  | [], _ => rfl
  | c :: rest, seen => by
    by_cases h0 : linkStr c = ""
    · rw [removeDuplicatesAux, if_neg (by simp [h0])]
      simp [h0, map_linkStr_removeDuplicatesAux rest seen]
    · by_cases hs : linkStr c ∈ seen
      · rw [removeDuplicatesAux, if_neg (by simp [hs])]
        simp [h0, hs, dedupKeepFirstAux, map_linkStr_removeDuplicatesAux rest seen]
      · rw [removeDuplicatesAux, if_pos ⟨h0, hs⟩]
        simp [h0, hs, dedupKeepFirstAux,
          map_linkStr_removeDuplicatesAux rest (linkStr c :: seen)]

/-- Membership in first-occurrence dedup with an accumulator. -/
theorem mem_dedupKeepFirstAux (s : String) :
    ∀ (l seen : List String), s ∈ dedupKeepFirstAux seen l ↔ s ∈ l ∧ s ∉ seen
  | [], seen => by simp [dedupKeepFirstAux]
  | t :: rest, seen => by
    by_cases ht : t ∈ seen
    · rw [dedupKeepFirstAux, if_pos ht, mem_dedupKeepFirstAux s rest seen]
      constructor
      · rintro ⟨h1, h2⟩
        exact ⟨List.mem_cons_of_mem _ h1, h2⟩
      · rintro ⟨h1, h2⟩
        rcases List.mem_cons.1 h1 with rfl | h1
        · exact absurd ht h2
        · exact ⟨h1, h2⟩
    · rw [dedupKeepFirstAux, if_neg ht]
      rw [List.mem_cons, mem_dedupKeepFirstAux s rest (t :: seen),
        List.mem_cons, List.mem_cons]
      by_cases hst : s = t
      · subst hst
        tauto
      · tauto

/-- First-occurrence dedup yields a duplicate-free list. -/
theorem nodup_dedupKeepFirstAux :
    ∀ (l seen : List String), (dedupKeepFirstAux seen l).Nodup
  | [], _ => List.nodup_nil
  | t :: rest, seen => by
    by_cases ht : t ∈ seen
    · rw [dedupKeepFirstAux, if_pos ht]
      exact nodup_dedupKeepFirstAux rest seen
    · rw [dedupKeepFirstAux, if_neg ht, List.nodup_cons]
      refine ⟨fun hmem => ?_, nodup_dedupKeepFirstAux rest (t :: seen)⟩
      exact ((mem_dedupKeepFirstAux t rest (t :: seen)).1 hmem).2 (List.mem_cons_self t seen)

/-- First-occurrence dedup counts the distinct strings of the input. -/
theorem length_dedupKeepFirst_eq_card (l : List String) :
    (dedupKeepFirst l).length = l.toFinset.card := by
  have hnd := nodup_dedupKeepFirstAux l []
  calc (dedupKeepFirst l).length = (dedupKeepFirst l).toFinset.card :=
        (List.toFinset_card_of_nodup hnd).symm
    _ = l.toFinset.card := by
        congr 1
        ext s
        simp [List.mem_toFinset, dedupKeepFirst, mem_dedupKeepFirstAux]

/-- An article survives deduplication exactly when its link is non-empty,
unseen so far, and no earlier article carries the same link. -/
theorem mem_removeDuplicatesAux (a : Article) :
    ∀ (l : List Article) (seen : List String),
      a ∈ removeDuplicatesAux seen l ↔
        ∃ l₁ l₂, l = l₁ ++ a :: l₂ ∧ linkStr a ≠ "" ∧ linkStr a ∉ seen ∧
          ∀ b ∈ l₁, linkStr b ≠ linkStr a
  | [], seen => by
    simp only [removeDuplicatesAux, List.not_mem_nil, false_iff]
    rintro ⟨l₁, l₂, h, -⟩
    exact List.cons_ne_nil a l₂ (List.append_eq_nil.1 h.symm).2
  | c :: rest, seen => by
    by_cases hc : linkStr c ≠ "" ∧ linkStr c ∉ seen
    · rw [removeDuplicatesAux, if_pos hc]
      constructor
      · intro hmem
        rcases List.mem_cons.1 hmem with rfl | hmem
        · exact ⟨[], rest, rfl, hc.1, hc.2, by simp⟩
        · obtain ⟨l₁, l₂, hrest, hne, hnotin, hfirst⟩ :=
            (mem_removeDuplicatesAux a rest (linkStr c :: seen)).1 hmem
          rw [List.mem_cons, not_or] at hnotin
          refine ⟨c :: l₁, l₂, by simp [hrest], hne, hnotin.2, ?_⟩
          rintro b hb
          rcases List.mem_cons.1 hb with rfl | hb
          · exact fun h => hnotin.1 h.symm
          · exact hfirst b hb
      · rintro ⟨l₁, l₂, heq, hne, hseen, hfirst⟩
        cases l₁ with
        | nil =>
          rw [List.nil_append, List.cons.injEq] at heq
          obtain ⟨rfl, -⟩ := heq
          exact List.mem_cons_self _ _
        | cons c₁ l₁' =>
          rw [List.cons_append, List.cons.injEq] at heq
          obtain ⟨rfl, hrest⟩ := heq
          refine List.mem_cons_of_mem c
            ((mem_removeDuplicatesAux a rest (linkStr c :: seen)).2
              ⟨l₁', l₂, hrest, hne, ?_, fun b hb => hfirst b (List.mem_cons_of_mem _ hb)⟩)
          rw [List.mem_cons, not_or]
          exact ⟨fun h => hfirst c (List.mem_cons_self c l₁') h.symm, hseen⟩
    · rw [removeDuplicatesAux, if_neg hc]
      rw [mem_removeDuplicatesAux a rest seen]
      constructor
      · rintro ⟨l₁, l₂, hrest, hne, hseen, hfirst⟩
        refine ⟨c :: l₁, l₂, by simp [hrest], hne, hseen, ?_⟩
        rintro b hb
        rcases List.mem_cons.1 hb with rfl | hb
        · intro hEq
          push_neg at hc
          rcases eq_or_ne (linkStr b) "" with h0 | h0
          · exact hne (hEq ▸ h0)
          · exact hseen (hEq ▸ hc h0)
        · exact hfirst b hb
      · rintro ⟨l₁, l₂, heq, hne, hseen, hfirst⟩
        cases l₁ with
        | nil =>
          rw [List.nil_append, List.cons.injEq] at heq
          obtain ⟨rfl, rfl⟩ := heq
          exact absurd ⟨hne, hseen⟩ hc
        | cons c₁ l₁' =>
          rw [List.cons_append, List.cons.injEq] at heq
          obtain ⟨rfl, hrest⟩ := heq
          exact ⟨l₁', l₂, hrest, hne, hseen, fun b hb => hfirst b (List.mem_cons_of_mem _ hb)⟩

/-- C1 counterexample: the claim asserts that an article whose link is
missing is kept by `_remove_duplicates` (output length = distinct
non-empty links + empty-link entries = 0 + 1 = 1), but the code's
`if link and link not in seen_links` drops every empty/missing-link
article, returning the empty list. -/
theorem remove_duplicates_drops_empty_link_articles :
    removeDuplicates [⟨none, none, 0⟩] = [] ∧
    (removeDuplicates [⟨none, none, 0⟩]).length ≠ 0 + 1 := by decide

/-- C1 (amended): `_remove_duplicates` returns the input subsequence that
keeps exactly the first occurrence of each distinct non-empty link
(case-sensitive exact match) and drops every article whose link is empty
or missing; the output length equals the number of distinct non-empty
links. -/
theorem remove_duplicates_spec (l : List Article) :
    (removeDuplicates l).Sublist l ∧
    (removeDuplicates l).map linkStr =
      dedupKeepFirst ((l.map linkStr).filter (fun s => s ≠ "")) ∧
    (∀ a : Article, a ∈ removeDuplicates l ↔
      ∃ l₁ l₂, l = l₁ ++ a :: l₂ ∧ linkStr a ≠ "" ∧
        ∀ b ∈ l₁, linkStr b ≠ linkStr a) ∧
    (removeDuplicates l).length =
      ((l.map linkStr).filter (fun s => s ≠ "")).toFinset.card := by
  refine ⟨removeDuplicatesAux_sublist l [], map_linkStr_removeDuplicatesAux l [], ?_, ?_⟩
  · intro a
    rw [removeDuplicates, mem_removeDuplicatesAux]
    simp
  · rw [removeDuplicates, ← length_dedupKeepFirst_eq_card]
    show _ = (dedupKeepFirstAux [] _).length
    rw [← map_linkStr_removeDuplicatesAux l [], List.length_map]

/-!
## The AI analyzer (`ai_analyzer.py`)

`analyze_articles` slices the input into chunks of `chunk_size` (default
15, never overridden by the caller in `main.py`), sends one completion
request per chunk, accumulates the per-chunk classification lists, and
finally sorts by relevance rank.  The outcome of each chunk's completion
request is external input; it is modelled by an oracle valued in
`ChunkResult`.
-/

/-- `x.get("relevance", "")`: the relevance label with `""` as default
for a missing key (ai_analyzer.py, line 67). -/
def relevanceStr (a : Article) : String := a.relevance.getD ""

/-- The sort key `relevance_order.get(x.get("relevance", ""), 3)` with
`relevance_order = {"Very Relevant": 0, "Relevant": 1, "Not Relevant": 2}`
(ai_analyzer.py 66-67); any unrecognized or missing label gets rank 3. -/
def relevanceRank (a : Article) : Nat :=
  if relevanceStr a = "Very Relevant" then 0
  else if relevanceStr a = "Relevant" then 1
  else if relevanceStr a = "Not Relevant" then 2
  else 3

/-- The preorder induced by the relevance rank. -/
def rankLE (x y : Article) : Prop := relevanceRank x ≤ relevanceRank y

instance : DecidableRel rankLE := fun _ _ => Nat.decLe _ _

instance : IsTotal Article rankLE := ⟨fun _ _ => Nat.le_total _ _⟩

instance : IsTrans Article rankLE := ⟨fun _ _ _ h1 h2 => Nat.le_trans h1 h2⟩

/-- `all_classified.sort(key=...)` (ai_analyzer.py 67).  Python's
`list.sort` is a stable sort by key; it is embedded as insertion sort on
`rankLE`, which is also stable, and any two stable sorts by the same key
produce identical output. -/
def sortByRelevance (l : List Article) : List Article :=
  l.insertionSort rankLE

/-- The outcome of one chunk's completion request (external input). -/
inductive ChunkResult where
  /-- the completion returned text from which `_extract_json` recovered a
  JSON array `classified` (ai_analyzer.py 129-131) -/
  | ok (classified : List Article)
  /-- `_extract_json` hit a `json.JSONDecodeError` and returned `[]`
  (ai_analyzer.py 171-173), or the completion text was empty
  (ai_analyzer.py 125-127): the chunk contributes zero articles -/
  | parseFail
  /-- the completion request raised a transport/API error, re-raised by
  `_analyze_chunk` (ai_analyzer.py 133-135) and caught by the chunk loop
  (ai_analyzer.py 61-63), which logs and continues -/
  | apiError
deriving Repr, DecidableEq

/-- The chunk loop of `analyze_articles` (ai_analyzer.py 54-63):
a successful chunk extends `all_classified` with its parsed list, a
parse failure extends it with `[]`, and an API error is caught by the
`except` clause which `continue`s with the next chunk. -/
def collectChunks : List ChunkResult → List Article
  | [] => []
  | ChunkResult.ok cs :: rest => cs ++ collectChunks rest
  | ChunkResult.parseFail :: rest => [] ++ collectChunks rest
  | ChunkResult.apiError :: rest => collectChunks rest

/-- `range(0, len(articles), chunk_size)` slicing
(`articles[i:i + chunk_size]`, ai_analyzer.py 54-55) as repeated
take/drop.  (For `size = 0` Python's `range` would raise; the code only
ever uses `chunk_size = 15`.) -/
def chunksOf (size : Nat) (l : List Article) : List (List Article) :=
  if h : l = [] ∨ size = 0 then []
  else l.take size :: chunksOf size (l.drop size)
termination_by l.length
decreasing_by
  push_neg at h
  have h1 : 0 < l.length := List.length_pos.2 h.1
  have h2 : 0 < size := Nat.pos_of_ne_zero h.2
  rw [List.length_drop]
  omega

/-- The default chunk size of `analyze_articles` (ai_analyzer.py 44),
never overridden by `main.py`. -/
def chunkSize : Nat := 15

/-- `AIAnalyzer.analyze_articles` (ai_analyzer.py 39-70) with the
per-chunk completion outcomes supplied by `oracle`. -/
def analyzeArticles (articles : List Article)
    (oracle : List Article → ChunkResult) : List Article :=
  sortByRelevance (collectChunks ((chunksOf chunkSize articles).map oracle))

/-- Inserting an article into a list commutes with filtering a rank
class: the inserted article lands in front of its own rank class. -/
theorem filter_rank_orderedInsert (a : Article) (k : Nat) :
    ∀ l : List Article,
      (l.orderedInsert rankLE a).filter (fun x => relevanceRank x = k) =
        if relevanceRank a = k then
          a :: l.filter (fun x => relevanceRank x = k)
        else l.filter (fun x => relevanceRank x = k)
  | [] => by
    by_cases h : relevanceRank a = k <;>
      simp [List.orderedInsert, List.filter_cons, h]
  | b :: l => by
    rw [List.orderedInsert]
    by_cases hab : rankLE a b
    · rw [if_pos hab]
      by_cases h : relevanceRank a = k <;>
        simp [List.filter_cons, h]
    · rw [if_neg hab]
      have hba : relevanceRank b < relevanceRank a := Nat.lt_of_not_le hab
      by_cases h : relevanceRank a = k
      · have hbk : relevanceRank b ≠ k := by omega
        simp [List.filter_cons, h, hbk, filter_rank_orderedInsert a k l]
      · simp [List.filter_cons, h, filter_rank_orderedInsert a k l]

/-- Insertion sort on the relevance rank is stable: each rank class
keeps its relative input order. -/
theorem filter_rank_insertionSort (k : Nat) :
    ∀ l : List Article,
      (l.insertionSort rankLE).filter (fun x => relevanceRank x = k) =
        l.filter (fun x => relevanceRank x = k)
  | [] => rfl
  | a :: l => by
    rw [List.insertionSort, filter_rank_orderedInsert a k (l.insertionSort rankLE)]
    by_cases h : relevanceRank a = k <;>
      simp [h, List.filter_cons, filter_rank_insertionSort k l]

/-- C4: the Analyzer's post-processing sort is a permutation of its
input, its relevance ranks are monotonically non-decreasing under the
(total) rank ordering Very Relevant < Relevant < Not Relevant < any
unrecognized or missing label, and it is stable: for every rank class
`k`, the articles of rank `k` appear in the output in their relative
input order. -/
theorem analyze_sort_stable_total (l : List Article) (k : Nat) :
    (sortByRelevance l).Perm l ∧
    (sortByRelevance l).Sorted rankLE ∧
    (sortByRelevance l).filter (fun x => relevanceRank x = k) =
      l.filter (fun x => relevanceRank x = k) :=
  ⟨List.perm_insertionSort rankLE l, List.sorted_insertionSort rankLE l,
    filter_rank_insertionSort k l⟩

/-- C5: a failing chunk never aborts the analysis.  Whether the chunk
parse-fails (`_extract_json` returns `[]`) or its completion request
raises a transport/API error (caught by the orchestrating loop, which
continues), the failing chunk contributes zero classified articles and
the chunks before and after it are still processed, contributing exactly
their own results. -/
theorem chunk_failure_isolated (pre post : List ChunkResult) (bad : ChunkResult)
    (hbad : bad = ChunkResult.parseFail ∨ bad = ChunkResult.apiError) :
    collectChunks (pre ++ bad :: post) = collectChunks pre ++ collectChunks post ∧
    collectChunks (bad :: post) = collectChunks post := by
  have hsingle : ∀ rest, collectChunks (bad :: rest) = collectChunks rest := by
    intro rest
    rcases hbad with rfl | rfl <;> simp [collectChunks]
  refine ⟨?_, hsingle post⟩
  induction pre with
  | nil => simp [collectChunks, hsingle]
  | cons c pre ih =>
    cases c <;> simp [collectChunks, ih]

theorem chunk_failure_isolated_witness :
    collectChunks ([ChunkResult.ok [⟨none, some "Relevant", 1⟩]] ++
        ChunkResult.parseFail :: [ChunkResult.ok [⟨none, some "Relevant", 2⟩]]) =
      collectChunks [ChunkResult.ok [⟨none, some "Relevant", 1⟩]] ++
        collectChunks [ChunkResult.ok [⟨none, some "Relevant", 2⟩]] ∧
    collectChunks
        (ChunkResult.parseFail :: [ChunkResult.ok [⟨none, some "Relevant", 2⟩]]) =
      collectChunks [ChunkResult.ok [⟨none, some "Relevant", 2⟩]] :=
  chunk_failure_isolated _ _ _ (Or.inl rfl)

theorem chunksOf_nil (size : Nat) : chunksOf size [] = [] := by
  rw [chunksOf]
  simp

theorem chunksOf_cons (size : Nat) (hs : size ≠ 0) (l : List Article) (hl : l ≠ []) :
    chunksOf size l = l.take size :: chunksOf size (l.drop size) := by
  rw [chunksOf]
  rw [dif_neg (by simp [hl, hs])]

/-- The number of chunks is the ceiling of `length / size`. -/
theorem chunksOf_length (size : Nat) (hs : 0 < size) :
    ∀ l : List Article, (chunksOf size l).length = (l.length + size - 1) / size
  | [] => by
    rw [chunksOf_nil]
    simp only [List.length_nil, List.length, Nat.zero_add]
    exact (Nat.div_eq_of_lt (by omega)).symm
  | a :: t => by
    rw [chunksOf_cons size hs.ne' _ (List.cons_ne_nil a t), List.length_cons,
      chunksOf_length size hs ((a :: t).drop size), List.length_drop]
    have hr : (a :: t).length + size - 1 = t.length + size := by
      rw [List.length_cons]
      omega
    rw [hr, Nat.add_div_right _ hs, List.length_cons]
    rcases Nat.lt_or_ge (t.length + 1) size with hlt | hge
    · have h1 : t.length + 1 - size = 0 := by omega
      have h2 : t.length / size = 0 := Nat.div_eq_of_lt (by omega)
      rw [h1, h2, Nat.zero_add]
      exact congrArg (· + 1) (Nat.div_eq_of_lt (by omega))
    · have h1 : t.length + 1 - size + size - 1 = t.length := by omega
      rw [h1]
termination_by l => l.length
decreasing_by
  rw [List.length_drop]
  simp only [List.length_cons]
  omega

/-- The chunk sizes: `size`-sized chunks followed by the remainder. -/
theorem chunksOf_map_length (size : Nat) (hs : 0 < size) :
    ∀ l : List Article,
      (chunksOf size l).map List.length =
        List.replicate (l.length / size) size ++
          (if l.length % size = 0 then [] else [l.length % size])
  | [] => by simp [chunksOf_nil]
  | a :: t => by
    rw [chunksOf_cons size hs.ne' _ (List.cons_ne_nil a t), List.map_cons,
      chunksOf_map_length size hs ((a :: t).drop size), List.length_take,
      List.length_drop]
    simp only [List.length_cons]
    rcases Nat.lt_or_ge (t.length + 1) size with hlt | hge
    · have h1 : min size (t.length + 1) = t.length + 1 := by omega
      have h2 : t.length + 1 - size = 0 := by omega
      have h3 : (t.length + 1) / size = 0 := Nat.div_eq_of_lt (by omega)
      have h4 : (t.length + 1) % size = t.length + 1 := Nat.mod_eq_of_lt (by omega)
      rw [h1, h2, h3, h4]
      simp
    · have h1 : min size (t.length + 1) = size := by omega
      rw [h1, Nat.div_eq_sub_div hs hge, Nat.mod_eq_sub_mod hge,
        List.replicate_succ, List.cons_append]
termination_by l => l.length
decreasing_by
  rw [List.length_drop]
  simp only [List.length_cons]
  omega

/-- Concatenating the chunks recovers the input. -/
theorem chunksOf_join (size : Nat) (hs : 0 < size) :
    ∀ l : List Article, (chunksOf size l).flatten = l
  | [] => by simp [chunksOf_nil]
  | a :: t => by
    rw [chunksOf_cons size hs.ne' _ (List.cons_ne_nil a t), List.flatten_cons,
      chunksOf_join size hs ((a :: t).drop size), List.take_append_drop]
termination_by l => l.length
decreasing_by
  rw [List.length_drop]
  simp only [List.length_cons]
  omega

/-- If every successful chunk returns at most its own number of
articles, the accumulated output is bounded by the total input size. -/
theorem collectChunks_length_le (oracle : List Article → ChunkResult) :
    ∀ C : List (List Article),
      (∀ c ∈ C, ∀ cs, oracle c = ChunkResult.ok cs → cs.length ≤ c.length) →
      (collectChunks (C.map oracle)).length ≤ (C.map List.length).sum
  | [], _ => Nat.le_refl 0
  | c :: C, h => by
    have ih := collectChunks_length_le oracle C
      (fun d hd => h d (List.mem_cons_of_mem _ hd))
    rw [List.map_cons, List.map_cons, List.sum_cons]
    cases hc : oracle c with
    | ok cs =>
      simp only [collectChunks, List.length_append]
      exact Nat.add_le_add (h c (List.mem_cons_self _ _) cs hc) ih
    | parseFail =>
      simp only [collectChunks, List.nil_append]
      exact Nat.le_trans ih (Nat.le_add_left _ _)
    | apiError =>
      simp only [collectChunks]
      exact Nat.le_trans ih (Nat.le_add_left _ _)

/-- If every chunk succeeds and returns exactly its own number of
articles, the accumulated output has exactly the total input size. -/
theorem collectChunks_length_eq (oracle : List Article → ChunkResult) :
    ∀ C : List (List Article),
      (∀ c ∈ C, ∀ cs, oracle c = ChunkResult.ok cs → cs.length = c.length) →
      (∀ c ∈ C, ∃ cs, oracle c = ChunkResult.ok cs) →
      (collectChunks (C.map oracle)).length = (C.map List.length).sum
  | [], _, _ => rfl
  | c :: C, h, hok => by
    have ih := collectChunks_length_eq oracle C
      (fun d hd => h d (List.mem_cons_of_mem _ hd))
      (fun d hd => hok d (List.mem_cons_of_mem _ hd))
    obtain ⟨cs, hc⟩ := hok c (List.mem_cons_self _ _)
    rw [List.map_cons, List.map_cons, List.sum_cons, hc]
    simp only [collectChunks, List.length_append]
    rw [h c (List.mem_cons_self _ _) cs hc, ih]

/-- C6 (amended): on `n` input articles with chunk size 15, the Analyzer
issues exactly `⌈n / 15⌉` sequential completion calls (one per chunk),
the chunk sizes are 15 except a final chunk of `n mod 15` when nonzero,
and — provided every successful chunk returns one classification per
article, as the prompt demands — the final output length is at most `n`,
with equality when every chunk succeeds, i.e. unless some chunk fails to
parse or its completion request raises a transport/API error (which the
loop catches, dropping that chunk's contribution). -/
theorem analyzer_chunking_spec (l : List Article)
    (oracle : List Article → ChunkResult)
    (hok : ∀ c ∈ chunksOf chunkSize l, ∀ cs,
      oracle c = ChunkResult.ok cs → cs.length = c.length) :
    (chunksOf chunkSize l).length = (l.length + 14) / 15 ∧
    (chunksOf chunkSize l).map List.length =
      List.replicate (l.length / 15) 15 ++
        (if l.length % 15 = 0 then [] else [l.length % 15]) ∧
    (analyzeArticles l oracle).length ≤ l.length ∧
    ((∀ c ∈ chunksOf chunkSize l, ∃ cs, oracle c = ChunkResult.ok cs) →
      (analyzeArticles l oracle).length = l.length) := by
  have h15 : (0 : Nat) < chunkSize := by decide
  have hsum : ((chunksOf chunkSize l).map List.length).sum = l.length := by
    rw [← List.length_flatten, chunksOf_join chunkSize h15 l]
  refine ⟨chunksOf_length chunkSize h15 l, chunksOf_map_length chunkSize h15 l, ?_, ?_⟩
  · rw [analyzeArticles, sortByRelevance, List.length_insertionSort, ← hsum]
    exact collectChunks_length_le oracle (chunksOf chunkSize l)
      (fun c hc cs hcs => Nat.le_of_eq (hok c hc cs hcs))
  · intro hall
    rw [analyzeArticles, sortByRelevance, List.length_insertionSort, ← hsum]
    exact collectChunks_length_eq oracle (chunksOf chunkSize l) hok hall

theorem analyzer_chunking_spec_witness :
    (chunksOf chunkSize ((List.range 32).map fun i => Article.mk none none i)).length
        = 3 ∧
    (chunksOf chunkSize ((List.range 32).map fun i => Article.mk none none i)).map
        List.length = [15, 15, 2] ∧
    (analyzeArticles ((List.range 32).map fun i => Article.mk none none i)
        ChunkResult.ok).length = 32 := by
  have h := analyzer_chunking_spec ((List.range 32).map fun i => Article.mk none none i)
    ChunkResult.ok (fun c _ cs hcs => by cases hcs; rfl)
  have hlen : ((List.range 32).map fun i => Article.mk none none i).length = 32 := by
    rw [List.length_map, List.length_range]
  refine ⟨?_, ?_, ?_⟩
  · rw [h.1, hlen]
  · rw [h.2.1, hlen]
    norm_num [List.replicate]
  · rw [h.2.2.2 (fun c _ => ⟨c, rfl⟩), hlen]

/-- C6 counterexample: the original claim promises output length `= n`
whenever no chunk fails to parse, but a chunk whose completion request
raises a transport/API error is caught by the loop's `except`
(ai_analyzer.py 61-63) and contributes zero articles with no parse
failure anywhere.  On one article whose only chunk API-errors, no chunk
parse-fails and every successful chunk (vacuously) returns one
classification per article, yet the output length is 0, not 1. -/
theorem analyzer_api_error_shrinks_output :
    (∀ c ∈ chunksOf chunkSize [(⟨none, none, 0⟩ : Article)],
      (fun _ : List Article => ChunkResult.apiError) c ≠ ChunkResult.parseFail) ∧
    (∀ c ∈ chunksOf chunkSize [(⟨none, none, 0⟩ : Article)], ∀ cs,
      (fun _ : List Article => ChunkResult.apiError) c = ChunkResult.ok cs →
        cs.length = c.length) ∧
    (analyzeArticles [(⟨none, none, 0⟩ : Article)]
        (fun _ : List Article => ChunkResult.apiError)).length ≠
      ([(⟨none, none, 0⟩ : Article)]).length := by
  refine ⟨fun c _ h => ChunkResult.noConfusion h,
    fun c _ cs h => ChunkResult.noConfusion h, ?_⟩
  have h1 : chunksOf chunkSize [(⟨none, none, 0⟩ : Article)] =
      [[(⟨none, none, 0⟩ : Article)]] := by
    rw [chunksOf_cons chunkSize (by norm_num [chunkSize]) _ (by simp)]
    simp [chunksOf_nil, chunkSize]
  rw [analyzeArticles, h1]
  simp [collectChunks, sortByRelevance, List.insertionSort]

/-!
## The pipeline's progress trace (`main.py`)

`process_news_search` drives a job through: create at progress 0,
`fetching` at 10, one `update_fetch_progress` callback per fetched page,
`analyzing` at 50, and a terminal update at 100 (`completed`, or
`failed` on zero articles or a raised error).  The per-page cumulative
article counts are external input (one entry per non-empty page, each
bounded by the requested page size under the news API's contract, at
most `max_pages` pages by the fetch loop's bound).
-/

/-- The progress value written by `update_fetch_progress` (main.py
198-205): `10 + int((article_count / (size * max_pages)) * 30)`.
Python evaluates the ratio in floating point; over the naturals the
truncation `int(...)` of the exact ratio is the floor
`article_count * 30 / (size * max_pages)`, which has the same
monotonicity and bounds. -/
def callbackProgress (size max_pages cum : Nat) : Nat :=
  10 + cum * 30 / (size * max_pages)

/-- The cumulative counts `len(all_articles)` passed to the progress
callback after each page (news_fetcher.py 66-72), from the per-page
result counts. -/
def cumCounts : List Nat → List Nat
  | [] => []
  | c :: rest => c :: (cumCounts rest).map (c + ·)

/-- The job's progress values over a successful pipeline run
(main.py 187-258): create at 0, fetching at 10, one callback per page,
analyzing at 50, completed at 100. -/
def successProgressTrace (size max_pages : Nat) (pages : List Nat) : List Nat :=
  [0, 10] ++ (cumCounts pages).map (callbackProgress size max_pages) ++ [50, 100]

/-- The job's progress values over a run that fails during or right
after fetching (main.py 216-223 and 260-267): the terminal `failed`
update writes progress 100. -/
def failureProgressTrace (size max_pages : Nat) (pages : List Nat) : List Nat :=
  [0, 10] ++ (cumCounts pages).map (callbackProgress size max_pages) ++ [100]

/-- Cumulative counts are non-decreasing. -/
theorem cumCounts_chain : ∀ pages : List Nat, (cumCounts pages).Chain' (· ≤ ·)
  | [] => List.chain'_nil
  | c :: rest => by
    rw [cumCounts]
    have hch : ((cumCounts rest).map (c + ·)).Chain' (· ≤ ·) := by
      rw [List.chain'_map]
      exact (cumCounts_chain rest).imp (fun a b hab => by omega)
    rcases hm : (cumCounts rest).map (c + ·) with _ | ⟨x, m⟩
    · simp
    · rw [hm] at hch
      rw [List.chain'_cons]
      refine ⟨?_, hch⟩
      have hx : x ∈ (cumCounts rest).map (c + ·) := by
        rw [hm]
        exact List.mem_cons_self _ _
      obtain ⟨y, -, rfl⟩ := List.mem_map.1 hx
      omega

/-- Each cumulative count is bounded by `size * number-of-pages`. -/
theorem cumCounts_le (size : Nat) :
    ∀ pages : List Nat, (∀ c ∈ pages, c ≤ size) →
      ∀ x ∈ cumCounts pages, x ≤ size * pages.length
  | [], _, x, hx => absurd hx (by simp [cumCounts])
  | c :: rest, h, x, hx => by
    rw [cumCounts] at hx
    rw [List.length_cons]
    rcases List.mem_cons.1 hx with rfl | hx
    · calc x ≤ size := h x (List.mem_cons_self _ _)
        _ = size * 1 := (Nat.mul_one size).symm
        _ ≤ size * (rest.length + 1) := Nat.mul_le_mul_left size (by omega)
    · obtain ⟨y, hy, rfl⟩ := List.mem_map.1 hx
      have h1 := cumCounts_le size rest (fun d hd => h d (List.mem_cons_of_mem _ hd)) y hy
      have h2 := h c (List.mem_cons_self _ _)
      calc c + y ≤ size + size * rest.length := Nat.add_le_add h2 h1
        _ = size * (rest.length + 1) := by ring

/-- The callback's progress formula is monotone in the count. -/
theorem callbackProgress_mono (size max_pages : Nat) {x y : Nat} (h : x ≤ y) :
    callbackProgress size max_pages x ≤ callbackProgress size max_pages y :=
  Nat.add_le_add_left (Nat.div_le_div_right (Nat.mul_le_mul_right 30 h)) 10

/-- As long as the cumulative count stays within `size * max_pages`, the
callback's progress stays at most 40 (10 + at most 30). -/
theorem callbackProgress_le (size max_pages cum : Nat) (hs : 0 < size)
    (hm : 0 < max_pages) (hcum : cum ≤ size * max_pages) :
    callbackProgress size max_pages cum ≤ 40 := by
  unfold callbackProgress
  have h1 : cum * 30 / (size * max_pages) ≤ 30 := by
    calc cum * 30 / (size * max_pages)
        ≤ size * max_pages * 30 / (size * max_pages) :=
          Nat.div_le_div_right (Nat.mul_le_mul_right 30 hcum)
      _ = 30 := Nat.mul_div_cancel_left 30 (Nat.mul_pos hs hm)
  omega

/-- Assembling a monotone trace `[0, 10] ++ callbacks ++ terminal`. -/
theorem chain_trace_of_bounds (m tail : List Nat) (hchain : m.Chain' (· ≤ ·))
    (hlow : ∀ x ∈ m, 10 ≤ x) (hhigh : ∀ x ∈ m, x ≤ 40)
    (htail : tail.Chain' (· ≤ ·)) (hhead : ∀ y ∈ tail.head?, 50 ≤ y) :
    ([0, 10] ++ m ++ tail).Chain' (· ≤ ·) := by
  rw [List.append_assoc]
  have h010 : ([0, 10] : List Nat).Chain' (· ≤ ·) := by
    rw [List.chain'_cons]
    exact ⟨by norm_num, List.chain'_singleton 10⟩
  refine List.Chain'.append h010 (List.Chain'.append hchain htail ?_) ?_
  · intro x hx y hy
    have hx' : x ∈ m := by
      rcases List.mem_getLast?_eq_getLast hx with ⟨hne, rfl⟩
      exact List.getLast_mem hne
    calc x ≤ 40 := hhigh x hx'
      _ ≤ 50 := by norm_num
      _ ≤ y := hhead y hy
  · intro x hx y hy
    have hx10 : (10 : Nat) = x := by simpa using hx
    subst hx10
    rcases m with _ | ⟨z, m'⟩
    · rw [List.nil_append] at hy
      calc (10 : Nat) ≤ 50 := by norm_num
        _ ≤ y := hhead y hy
    · rw [List.cons_append, List.head?_cons] at hy
      have hyz : z = y := by simpa using hy
      subst hyz
      exact hlow z (List.mem_cons_self _ _)

/-- C3: over every trace of updates the pipeline produces (create at 0,
fetching at 10, per-page callbacks at
`10 + int((cumulative / (size * max_pages)) * 30)`, analyzing at 50,
terminal at 100 — whether `completed` or `failed`), the job's progress is
monotonically non-decreasing, provided the news API honors the requested
page size (each page returns at most `size` articles; the fetch loop
itself bounds the pages by `max_pages`). -/
theorem pipeline_progress_monotone (size max_pages : Nat) (pages : List Nat)
    (hs : 1 ≤ size) (hm : 1 ≤ max_pages) (hp : pages.length ≤ max_pages)
    (hcount : ∀ c ∈ pages, c ≤ size) :
    (successProgressTrace size max_pages pages).Chain' (· ≤ ·) ∧
    (failureProgressTrace size max_pages pages).Chain' (· ≤ ·) := by
  have hchain : ((cumCounts pages).map (callbackProgress size max_pages)).Chain'
      (· ≤ ·) := by
    rw [List.chain'_map]
    exact (cumCounts_chain pages).imp
      (fun a b hab => callbackProgress_mono size max_pages hab)
  have hlow : ∀ x ∈ (cumCounts pages).map (callbackProgress size max_pages),
      10 ≤ x := by
    intro x hx
    obtain ⟨y, -, rfl⟩ := List.mem_map.1 hx
    exact Nat.le_add_right 10 _
  have hhigh : ∀ x ∈ (cumCounts pages).map (callbackProgress size max_pages),
      x ≤ 40 := by
    intro x hx
    obtain ⟨y, hy, rfl⟩ := List.mem_map.1 hx
    refine callbackProgress_le size max_pages y hs hm ?_
    calc y ≤ size * pages.length := cumCounts_le size pages hcount y hy
      _ ≤ size * max_pages := Nat.mul_le_mul_left size hp
  have h50 : ([50, 100] : List Nat).Chain' (· ≤ ·) := by
    rw [List.chain'_cons]
    exact ⟨by norm_num, List.chain'_singleton 100⟩
  exact ⟨chain_trace_of_bounds _ _ hchain hlow hhigh h50
      (by intro y hy; simp at hy; omega),
    chain_trace_of_bounds _ _ hchain hlow hhigh (List.chain'_singleton 100)
      (by intro y hy; simp at hy; omega)⟩

theorem pipeline_progress_monotone_witness :
    (1 : Nat) ≤ 10 ∧ (1 : Nat) ≤ 2 ∧
    ([10, 10] : List Nat).length ≤ 2 ∧
    (successProgressTrace 10 2 [10, 10]).Chain' (· ≤ ·) ∧
    (failureProgressTrace 10 2 [10, 10]).Chain' (· ≤ ·) := by
  have h := pipeline_progress_monotone 10 2 [10, 10] (by norm_num) (by norm_num)
    (by norm_num) (by intro c hc; simp at hc; omega)
  exact ⟨by norm_num, by norm_num, by norm_num, h.1, h.2⟩

/-!
## The job manager (`job_manager.py`)

`JobManager` holds the insertion-ordered dict `self.jobs`, the capacity
`max_jobs`, and the `results/` directory.  The directory is modelled by
the list of `(job_id, extension)` files present together with the parsed
contents of the JSON snapshot files; `datetime.now()` values and file
mtimes are naturals supplied by the caller.
-/

/-- The `JobStatus` record (models.py 44-54) with timestamps as
naturals. -/
structure Job where
  job_id : String
  status : String
  progress : Nat
  created_at : Nat
  updated_at : Nat
  query : String
  total_articles : Option Nat
  error : Option String
  results : Option (List Article)
deriving Repr, DecidableEq

/-- The JSON snapshot written by `_save_results` (job_manager.py
123-129): `{job_id, query, timestamp, total_articles, articles}`.  Also
the parsed form of a stored result file read back by
`_load_existing_results`. -/
structure Snapshot where
  job_id : String
  query : String
  timestamp : Nat
  total_articles : Nat
  articles : List Article
deriving Repr, DecidableEq

/-- The `JobManager` state: the in-memory job table, the configured
capacity, and the persisted `results/` store. -/
structure ManagerState where
  jobs : List (String × Job)
  max_jobs : Nat
  resultFiles : List (String × String)
  snapshots : List Snapshot
deriving Repr, DecidableEq

/-- `self.jobs.get(job_id)` (dict point lookup, job_manager.py 53). -/
def jobsFind (jobs : List (String × Job)) (job_id : String) : Option Job :=
  (jobs.find? (fun p => p.1 = job_id)).map (·.2)

/-- `self.jobs[job_id] = job`: Python dicts preserve insertion order, so
assignment replaces in place when the key exists and appends
otherwise. -/
def jobsInsert (jobs : List (String × Job)) (job_id : String) (j : Job) :
    List (String × Job) :=
  if jobs.any (fun p => p.1 = job_id) then
    jobs.map (fun p => if p.1 = job_id then (job_id, j) else p)
  else jobs ++ [(job_id, j)]

/-- `JobManager._save_results` (job_manager.py 118-137): writes
`results/{job_id}.json` containing the job id, query, timestamp,
`len(results)` and the articles, overwriting any previous snapshot for
that id.  (The enclosing try/except swallows I/O errors; the file system
is modelled as always writable.) -/
def saveResults (st : ManagerState) (job_id : String) (results : List Article)
    (query : String) (now : Nat) : ManagerState :=
  { st with
    snapshots := st.snapshots.filter (fun s => s.job_id ≠ job_id) ++
      [⟨job_id, query, now, results.length, results⟩],
    resultFiles :=
      if st.resultFiles.any (fun f => f.1 = job_id ∧ f.2 = "json") then
        st.resultFiles
      else st.resultFiles ++ [(job_id, "json")] }

/-- Python truthiness of an optional string (`if status:` /
`if error:`, job_manager.py 69 and 75). -/
def strTruthy : Option String → Bool
  | none => false
  | some s => s ≠ ""

/-- Python truthiness of an optional list (`and results`,
job_manager.py 82). -/
def listTruthy : Option (List Article) → Bool
  | none => false
  | some l => !l.isEmpty

/-- The field updates of `update_job` (job_manager.py 69-80): `status`
and `error` are tested for truthiness, `progress`, `total_articles` and
`results` with `is not None`; `updated_at` is always refreshed. -/
def applyUpdates (job : Job) (status : Option String) (progress : Option Nat)
    (total_articles : Option Nat) (error : Option String)
    (results : Option (List Article)) (now : Nat) : Job :=
  let job := if strTruthy status then { job with status := status.getD "" } else job
  let job := match progress with
    | some p => { job with progress := p }
    | none => job
  let job := match total_articles with
    | some t => { job with total_articles := some t }
    | none => job
  let job := if strTruthy error then { job with error := error } else job
  let job := match results with
    | some r => { job with results := some r }
    | none => job
  { job with updated_at := now }

/-- `JobManager.update_job` (job_manager.py 55-85): a missing job id is
a no-op returning `None`; otherwise the fields are updated and, when the
`status` argument equals `"completed"` and the `results` argument is
truthy (non-`None` and non-empty), `_save_results` persists the
snapshot. -/
def updateJob (st : ManagerState) (job_id : String) (status : Option String)
    (progress : Option Nat) (total_articles : Option Nat) (error : Option String)
    (results : Option (List Article)) (now : Nat) : ManagerState :=
  match jobsFind st.jobs job_id with
  | none => st
  | some job =>
    let job := applyUpdates job status progress total_articles error results now
    let st1 := { st with jobs := jobsInsert st.jobs job_id job }
    if status = some "completed" ∧ listTruthy results then
      saveResults st1 job_id (results.getD []) job.query now
    else st1

/-- `JobManager.delete_job` (job_manager.py 87-98): removes the job from
the dict and removes the persisted `json`/`csv`/`xlsx` files for that
id. -/
def deleteJob (st : ManagerState) (job_id : String) : ManagerState :=
  if st.jobs.any (fun p => p.1 = job_id) then
    { st with
      jobs := st.jobs.filter (fun p => p.1 ≠ job_id),
      resultFiles := st.resultFiles.filter
        (fun f => ¬(f.1 = job_id ∧ (f.2 = "json" ∨ f.2 = "csv" ∨ f.2 = "xlsx"))),
      snapshots := st.snapshots.filter (fun s => s.job_id ≠ job_id) }
  else st

/-- The key ordering of `_cleanup_old_jobs`'s
`sorted(self.jobs.items(), key=lambda x: x[1].created_at)`. -/
def createdLE (p q : String × Job) : Prop :=
  p.2.created_at ≤ q.2.created_at

instance : DecidableRel createdLE := fun _ _ => Nat.decLe _ _

instance : IsTotal (String × Job) createdLE := ⟨fun _ _ => Nat.le_total _ _⟩

instance : IsTrans (String × Job) createdLE :=
  ⟨fun _ _ _ h1 h2 => Nat.le_trans h1 h2⟩

/-- `JobManager._cleanup_old_jobs` (job_manager.py 215-226): stable-sort
the table by creation time (Python's `sorted` is stable; embedded as the
equally stable insertion sort) and delete the first
`len(jobs) - max_jobs` entries of the sorted copy. -/
def cleanupOldJobs (st : ManagerState) : ManagerState :=
  if st.jobs.length ≤ st.max_jobs then st
  else
    ((st.jobs.insertionSort createdLE).take (st.jobs.length - st.max_jobs)).foldl
      (fun s p => deleteJob s p.1) st

/-- `JobManager.create_job` (job_manager.py 28-49): registers a fresh
`created`/progress-0 record, then evicts down to capacity if the table
grew beyond `max_jobs`. -/
def createJob (st : ManagerState) (job_id : String) (query : String) (now : Nat) :
    ManagerState :=
  let job : Job := ⟨job_id, "created", 0, now, now, query, none, none, none⟩
  let st1 := { st with jobs := jobsInsert st.jobs job_id job }
  if st1.max_jobs < st1.jobs.length then cleanupOldJobs st1 else st1

/-- `JobManager._load_existing_results` (job_manager.py 227-263): each
successfully parsed `results/*.json` file (job id from the filename,
timestamps from the file's mtime, `total_articles` from the stored field)
becomes a `completed` job at progress 100, inserted without any capacity
check. -/
def loadExistingResults (files : List Snapshot) (st : ManagerState) :
    ManagerState :=
  files.foldl
    (fun s f =>
      { s with
        jobs := jobsInsert s.jobs f.job_id
          ⟨f.job_id, "completed", 100, f.timestamp, f.timestamp, f.query,
            some f.total_articles, none, some f.articles⟩ }) st

/-- Looking up the key just assigned yields the assigned job. -/
theorem jobsFind_jobsInsert_self :
    ∀ (jobs : List (String × Job)) (job_id : String) (j : Job),
      jobsFind (jobsInsert jobs job_id j) job_id = some j := by
  have hrepl : ∀ (job_id : String) (j : Job) (jobs : List (String × Job)),
      jobs.any (fun p => p.1 = job_id) = true →
      jobsFind (jobs.map (fun p => if p.1 = job_id then (job_id, j) else p))
        job_id = some j := by
    intro job_id j jobs
    induction jobs with
    | nil => intro h; simp at h
    | cons p rest ih =>
      intro h
      rw [List.map_cons]
      by_cases hp : p.1 = job_id
      · rw [if_pos hp, jobsFind, List.find?_cons_of_pos _ (by simp)]
        rfl
      · rw [if_neg hp, jobsFind, List.find?_cons_of_neg _ (by simp [hp])]
        rw [List.any_cons] at h
        exact ih (by simpa [hp] using h)
  intro jobs job_id j
  rw [jobsInsert]
  split_ifs with h
  · exact hrepl job_id j jobs h
  · rw [jobsFind, List.find?_append]
    have h1 : jobs.find? (fun p => p.1 = job_id) = none := by
      rw [List.find?_eq_none]
      intro x hx hdec
      exact h (List.any_eq_true.2 ⟨x, hx, hdec⟩)
    rw [h1, List.find?_cons_of_pos _ (by simp)]
    rfl

theorem saveResults_jobs (st : ManagerState) (job_id : String)
    (results : List Article) (query : String) (now : Nat) :
    (saveResults st job_id results query now).jobs = st.jobs := rfl

/-- Characterization of `update_job` on an existing job: the table holds
the updated record, and the snapshot store changes exactly when the
`status` argument is `"completed"` and the `results` argument is truthy. -/
theorem updateJob_spec (st : ManagerState) (job_id : String) (job : Job)
    (hfind : jobsFind st.jobs job_id = some job)
    (status : Option String) (progress : Option Nat) (total_articles : Option Nat)
    (error : Option String) (results : Option (List Article)) (now : Nat) :
    (updateJob st job_id status progress total_articles error results now).jobs =
      jobsInsert st.jobs job_id
        (applyUpdates job status progress total_articles error results now) ∧
    (updateJob st job_id status progress total_articles error results now).snapshots =
      (if status = some "completed" ∧ listTruthy results then
        st.snapshots.filter (fun s => s.job_id ≠ job_id) ++
          [⟨job_id,
            (applyUpdates job status progress total_articles error results now).query,
            now, (results.getD []).length, results.getD []⟩]
      else st.snapshots) ∧
    (updateJob st job_id status progress total_articles error results now).max_jobs =
      st.max_jobs := by
  rw [updateJob, hfind]
  split_ifs with hc
  · exact ⟨rfl, rfl, rfl⟩
  · exact ⟨rfl, rfl, rfl⟩

/-- The sequential `if` updates of `update_job`, summarized field by
field. -/
theorem applyUpdates_fields (job : Job) (status : Option String)
    (progress : Option Nat) (total_articles : Option Nat) (error : Option String)
    (results : Option (List Article)) (now : Nat) :
    (applyUpdates job status progress total_articles error results now).status =
      (if strTruthy status then status.getD "" else job.status) ∧
    (applyUpdates job status progress total_articles error results now).progress =
      progress.getD job.progress ∧
    (applyUpdates job status progress total_articles error results now).total_articles
      = total_articles.or job.total_articles ∧
    (applyUpdates job status progress total_articles error results now).error =
      (if strTruthy error then error else job.error) ∧
    (applyUpdates job status progress total_articles error results now).results =
      results.or job.results ∧
    (applyUpdates job status progress total_articles error results now).updated_at =
      now ∧
    (applyUpdates job status progress total_articles error results now).created_at =
      job.created_at ∧
    (applyUpdates job status progress total_articles error results now).query =
      job.query ∧
    (applyUpdates job status progress total_articles error results now).job_id =
      job.job_id := by
  rcases progress with _ | p <;> rcases total_articles with _ | t <;>
    rcases results with _ | r <;>
      simp [applyUpdates, Option.or] <;> split_ifs <;> simp

/-- C9: for every existing job, `update_job` leaves every field whose
argument is `None` unchanged; because `status` and `error` are tested
for truthiness, an empty-string argument also leaves the field
unchanged, so a falsy value is never stored and a set `error` is never
cleared back to `None`; `updated_at` is refreshed on every call that
finds the job, even when no other field changes. -/
theorem update_job_frame_effects (st : ManagerState) (job_id : String) (job : Job)
    (hfind : jobsFind st.jobs job_id = some job)
    (status : Option String) (progress : Option Nat) (total_articles : Option Nat)
    (error : Option String) (results : Option (List Article)) (now : Nat) :
    ∃ job',
      jobsFind (updateJob st job_id status progress total_articles error
        results now).jobs job_id = some job' ∧
      job'.updated_at = now ∧
      ((status = none ∨ status = some "") → job'.status = job.status) ∧
      (progress = none → job'.progress = job.progress) ∧
      (total_articles = none → job'.total_articles = job.total_articles) ∧
      ((error = none ∨ error = some "") → job'.error = job.error) ∧
      (results = none → job'.results = job.results) ∧
      (job.error ≠ none → job'.error ≠ none) ∧
      (job.status ≠ "" → job'.status ≠ "") ∧
      (job.error ≠ some "" → job'.error ≠ some "") := by
  obtain ⟨hs, hp, ht, he, hr, hu, -, -, -⟩ :=
    applyUpdates_fields job status progress total_articles error results now
  refine ⟨applyUpdates job status progress total_articles error results now,
    ?_, hu, ?_, ?_, ?_, ?_, ?_, ?_, ?_, ?_⟩
  · rw [(updateJob_spec st job_id job hfind status progress total_articles error
      results now).1]
    exact jobsFind_jobsInsert_self st.jobs job_id _
  · rintro (rfl | rfl) <;> simp [hs, strTruthy]
  · rintro rfl
    simp [hp]
  · rintro rfl
    simp [ht, Option.or]
  · rintro (rfl | rfl) <;> simp [he, strTruthy]
  · rintro rfl
    simp [hr, Option.or]
  · intro hne
    rw [he]
    split_ifs with htr
    · rcases error with _ | e
      · simp [strTruthy] at htr
      · simp
    · exact hne
  · intro hne
    rw [hs]
    split_ifs with htr
    · rcases status with _ | s
      · simp [strTruthy] at htr
      · simp [strTruthy] at htr
        simpa using htr
    · exact hne
  · intro hne
    rw [he]
    split_ifs with htr
    · rcases error with _ | e
      · simp [strTruthy] at htr
      · simp [strTruthy] at htr
        simp [htr]
    · exact hne

theorem update_job_frame_effects_witness :
    ∃ job',
      jobsFind (updateJob
        ⟨[("j1", ⟨"j1", "created", 0, 0, 0, "q", none, some "boom", none⟩)],
          100, [], []⟩
        "j1" (some "") none none (some "") none 5).jobs "j1" = some job' ∧
      job'.updated_at = 5 ∧
      ((some "" = none ∨ (some "" : Option String) = some "") →
        job'.status = "created") ∧
      ((none : Option Nat) = none → job'.progress = 0) ∧
      ((none : Option Nat) = none → job'.total_articles = none) ∧
      ((some "" = none ∨ (some "" : Option String) = some "") →
        job'.error = some "boom") ∧
      ((none : Option (List Article)) = none → job'.results = none) ∧
      ((some "boom" : Option String) ≠ none → job'.error ≠ none) ∧
      ("created" ≠ "" → job'.status ≠ "") ∧
      ((some "boom" : Option String) ≠ some "" → job'.error ≠ some "") :=
  update_job_frame_effects
    ⟨[("j1", ⟨"j1", "created", 0, 0, 0, "q", none, some "boom", none⟩)], 100, [], []⟩
    "j1" ⟨"j1", "created", 0, 0, 0, "q", none, some "boom", none⟩ (by decide)
    (some "") none none (some "") none 5

/-- C2 counterexample: the pipeline's `completed` update with an empty
classified sequence (the exact call `update_job(job_id,
status="completed", progress=100, results=[], total_articles=0)` from
main.py 252-258).  The claim asserts a snapshot keyed by the job id is
persisted in this case too, but `if status == "completed" and results:`
treats the empty list as falsy and skips `_save_results`: the job
completes while the snapshot store stays empty. -/
theorem completed_empty_results_no_snapshot :
    (updateJob ⟨[("j1", ⟨"j1", "analyzing", 50, 0, 0, "q", none, none, none⟩)],
        100, [], []⟩
      "j1" (some "completed") (some 100) (some 0) none (some []) 7).snapshots
      = [] ∧
    jobsFind (updateJob
        ⟨[("j1", ⟨"j1", "analyzing", 50, 0, 0, "q", none, none, none⟩)],
          100, [], []⟩
        "j1" (some "completed") (some 100) (some 0) none (some []) 7).jobs "j1"
      = some ⟨"j1", "completed", 100, 0, 7, "q", some 0, none, some []⟩ := by
  decide

/-- C2 (amended): a job completed by the pipeline's final update always
has a non-null results sequence, and a JSON snapshot keyed by the job id
with `total_articles` equal to the sequence length is persisted exactly
when the classified sequence is non-empty; when the Analyzer produced an
empty sequence, the job completes with a non-null empty results sequence
but no snapshot is written. -/
theorem completed_job_snapshot (st : ManagerState) (job_id : String) (job : Job)
    (hfind : jobsFind st.jobs job_id = some job) (classified : List Article)
    (n now : Nat) :
    ∃ job', jobsFind (updateJob st job_id (some "completed") (some 100) (some n)
        none (some classified) now).jobs job_id = some job' ∧
      job'.status = "completed" ∧ job'.progress = 100 ∧
      job'.results = some classified ∧
      (classified ≠ [] →
        (updateJob st job_id (some "completed") (some 100) (some n) none
          (some classified) now).snapshots =
          st.snapshots.filter (fun s => s.job_id ≠ job_id) ++
            [⟨job_id, job.query, now, classified.length, classified⟩]) ∧
      (classified = [] →
        (updateJob st job_id (some "completed") (some 100) (some n) none
          (some classified) now).snapshots = st.snapshots) := by
  obtain ⟨hjobs, hsnaps, -⟩ := updateJob_spec st job_id job hfind
    (some "completed") (some 100) (some n) none (some classified) now
  obtain ⟨hs, hp, -, -, hr, -, -, hq, -⟩ := applyUpdates_fields job
    (some "completed") (some 100) (some n) none (some classified) now
  refine ⟨_, by rw [hjobs]; exact jobsFind_jobsInsert_self st.jobs job_id _,
    ?_, ?_, ?_, ?_, ?_⟩
  · rw [hs]
    simp [strTruthy]
  · rw [hp]
    rfl
  · rw [hr]
    rfl
  · intro hne
    rw [hsnaps, if_pos ⟨rfl, by simp [listTruthy, hne]⟩, hq]
    rfl
  · intro heq
    subst heq
    rw [hsnaps, if_neg (by simp [listTruthy])]

theorem completed_job_snapshot_witness :
    ∃ job', jobsFind (updateJob
        ⟨[("j1", ⟨"j1", "analyzing", 50, 0, 0, "q", none, none, none⟩)],
          100, [], []⟩
        "j1" (some "completed") (some 100) (some 1) none
        (some [⟨none, some "Relevant", 3⟩]) 9).jobs "j1" = some job' ∧
      job'.status = "completed" ∧ job'.progress = 100 ∧
      job'.results = some [⟨none, some "Relevant", 3⟩] ∧
      (([⟨none, some "Relevant", 3⟩] : List Article) ≠ [] →
        (updateJob ⟨[("j1", ⟨"j1", "analyzing", 50, 0, 0, "q", none, none, none⟩)],
            100, [], []⟩
          "j1" (some "completed") (some 100) (some 1) none
          (some [⟨none, some "Relevant", 3⟩]) 9).snapshots =
          ([] : List Snapshot).filter (fun s => s.job_id ≠ "j1") ++
            [⟨"j1", "q", 9, ([⟨none, some "Relevant", 3⟩] : List Article).length,
              [⟨none, some "Relevant", 3⟩]⟩]) ∧
      (([⟨none, some "Relevant", 3⟩] : List Article) = [] →
        (updateJob ⟨[("j1", ⟨"j1", "analyzing", 50, 0, 0, "q", none, none, none⟩)],
            100, [], []⟩
          "j1" (some "completed") (some 100) (some 1) none
          (some [⟨none, some "Relevant", 3⟩]) 9).snapshots = []) :=
  completed_job_snapshot
    ⟨[("j1", ⟨"j1", "analyzing", 50, 0, 0, "q", none, none, none⟩)], 100, [], []⟩
    "j1" ⟨"j1", "analyzing", 50, 0, 0, "q", none, none, none⟩ (by decide)
    [⟨none, some "Relevant", 3⟩] 1 9

/-- The pipeline's trace when the fetcher returns zero articles
(main.py 191 then 216-223): the `fetching`/10 update followed by the
`failed`/100 update with error "No articles found". -/
def zeroArticlesRun (st : ManagerState) (job_id : String) (t₁ t₂ : Nat) :
    ManagerState :=
  updateJob (updateJob st job_id (some "fetching") (some 10) none none none t₁)
    job_id (some "failed") (some 100) none (some "No articles found") none t₂

/-- C7: a job that reaches `failed` via the pipeline's failure update
(with a non-empty rendered error message, as produced by every exception
the repository raises) has a non-null error message and progress 100,
and the snapshot store is untouched; in the zero-articles scenario the
job passes through `fetching`/10 and ends `failed`/100 with error
"No articles found" and no snapshot persisted for it. -/
theorem failed_job_spec (st : ManagerState) (job_id : String) (job : Job)
    (hfind : jobsFind st.jobs job_id = some job) (msg : String) (hmsg : msg ≠ "")
    (now t₁ t₂ : Nat) :
    (∃ job', jobsFind (updateJob st job_id (some "failed") (some 100) none
        (some msg) none now).jobs job_id = some job' ∧
      job'.status = "failed" ∧ job'.progress = 100 ∧ job'.error = some msg ∧
      (updateJob st job_id (some "failed") (some 100) none (some msg) none
        now).snapshots = st.snapshots) ∧
    (∃ jobMid jobEnd,
      jobsFind (updateJob st job_id (some "fetching") (some 10) none none none
        t₁).jobs job_id = some jobMid ∧
      jobMid.status = "fetching" ∧ jobMid.progress = 10 ∧
      jobsFind (zeroArticlesRun st job_id t₁ t₂).jobs job_id = some jobEnd ∧
      jobEnd.status = "failed" ∧ jobEnd.progress = 100 ∧
      jobEnd.error = some "No articles found" ∧
      (zeroArticlesRun st job_id t₁ t₂).snapshots = st.snapshots ∧
      ((∀ s ∈ st.snapshots, s.job_id ≠ job_id) →
        ∀ s ∈ (zeroArticlesRun st job_id t₁ t₂).snapshots, s.job_id ≠ job_id)) := by
  have hfail : ∀ (st' : ManagerState) (job0 : Job)
      (hf : jobsFind st'.jobs job_id = some job0) (m : String) (hm : m ≠ "")
      (t : Nat),
      ∃ job', jobsFind (updateJob st' job_id (some "failed") (some 100) none
          (some m) none t).jobs job_id = some job' ∧
        job'.status = "failed" ∧ job'.progress = 100 ∧ job'.error = some m ∧
        (updateJob st' job_id (some "failed") (some 100) none (some m) none
          t).snapshots = st'.snapshots := by
    intro st' job0 hf m hm t
    obtain ⟨hjobs, hsnaps, -⟩ := updateJob_spec st' job_id job0 hf (some "failed")
      (some 100) none (some m) none t
    obtain ⟨hs, hp, -, he, -, -, -, -, -⟩ := applyUpdates_fields job0
      (some "failed") (some 100) none (some m) none t
    refine ⟨_, by rw [hjobs]; exact jobsFind_jobsInsert_self st'.jobs job_id _,
      ?_, ?_, ?_, ?_⟩
    · rw [hs]
      simp [strTruthy]
    · rw [hp]
      rfl
    · rw [he]
      simp [strTruthy, hm]
    · rw [hsnaps, if_neg (by simp)]
  refine ⟨hfail st job hfind msg hmsg now, ?_⟩
  obtain ⟨hjobs1, hsnaps1, -⟩ := updateJob_spec st job_id job hfind
    (some "fetching") (some 10) none none none t₁
  obtain ⟨hs1, hp1, -, -, -, -, -, -, -⟩ := applyUpdates_fields job
    (some "fetching") (some 10) none none none t₁
  have hfind1 : jobsFind (updateJob st job_id (some "fetching") (some 10) none
      none none t₁).jobs job_id =
      some (applyUpdates job (some "fetching") (some 10) none none none t₁) := by
    rw [hjobs1]
    exact jobsFind_jobsInsert_self st.jobs job_id _
  obtain ⟨jobEnd, hfindE, hsE, hpE, heE, hsnapsE⟩ :=
    hfail _ _ hfind1 "No articles found" (by simp) t₂
  have hsnaps1' : (updateJob st job_id (some "fetching") (some 10) none none none
      t₁).snapshots = st.snapshots := by
    rw [hsnaps1, if_neg (by simp)]
  refine ⟨applyUpdates job (some "fetching") (some 10) none none none t₁, jobEnd,
    hfind1, ?_, ?_, hfindE, hsE, hpE, heE, ?_, ?_⟩
  · rw [hs1]
    simp [strTruthy]
  · rw [hp1]
    rfl
  · rw [zeroArticlesRun, hsnapsE, hsnaps1']
  · intro hnone s hsmem
    rw [zeroArticlesRun, hsnapsE, hsnaps1'] at hsmem
    exact hnone s hsmem

theorem failed_job_spec_witness :
    ((∃ job', jobsFind (updateJob
        ⟨[("j1", ⟨"j1", "created", 0, 0, 0, "q", none, none, none⟩)], 100, [], []⟩
        "j1" (some "failed") (some 100) none (some "HTTP 500") none 3).jobs "j1"
        = some job' ∧
      job'.status = "failed" ∧ job'.progress = 100 ∧
      job'.error = some "HTTP 500" ∧
      (updateJob
        ⟨[("j1", ⟨"j1", "created", 0, 0, 0, "q", none, none, none⟩)], 100, [], []⟩
        "j1" (some "failed") (some 100) none (some "HTTP 500") none 3).snapshots
        = []) ∧
    (∃ jobMid jobEnd,
      jobsFind (updateJob
        ⟨[("j1", ⟨"j1", "created", 0, 0, 0, "q", none, none, none⟩)], 100, [], []⟩
        "j1" (some "fetching") (some 10) none none none 3).jobs "j1"
        = some jobMid ∧
      jobMid.status = "fetching" ∧ jobMid.progress = 10 ∧
      jobsFind (zeroArticlesRun
        ⟨[("j1", ⟨"j1", "created", 0, 0, 0, "q", none, none, none⟩)], 100, [], []⟩
        "j1" 3 4).jobs "j1" = some jobEnd ∧
      jobEnd.status = "failed" ∧ jobEnd.progress = 100 ∧
      jobEnd.error = some "No articles found" ∧
      (zeroArticlesRun
        ⟨[("j1", ⟨"j1", "created", 0, 0, 0, "q", none, none, none⟩)], 100, [], []⟩
        "j1" 3 4).snapshots = [] ∧
      ((∀ s ∈ ([] : List Snapshot), s.job_id ≠ "j1") →
        ∀ s ∈ (zeroArticlesRun
          ⟨[("j1", ⟨"j1", "created", 0, 0, 0, "q", none, none, none⟩)], 100, [], []⟩
          "j1" 3 4).snapshots, s.job_id ≠ "j1"))) :=
  failed_job_spec
    ⟨[("j1", ⟨"j1", "created", 0, 0, 0, "q", none, none, none⟩)], 100, [], []⟩
    "j1" ⟨"j1", "created", 0, 0, 0, "q", none, none, none⟩ (by decide)
    "HTTP 500" (by decide) 3 3 4

/-- Assigning a fresh key appends to the table. -/
theorem jobsInsert_fresh (jobs : List (String × Job)) (job_id : String) (j : Job)
    (h : job_id ∉ jobs.map Prod.fst) :
    jobsInsert jobs job_id j = jobs ++ [(job_id, j)] := by
  have hany : ¬jobs.any (fun p => p.1 = job_id) = true := by
    intro hany
    obtain ⟨p, hp, hdec⟩ := List.any_eq_true.1 hany
    exact h (List.mem_map.2 ⟨p, hp, by simpa using hdec⟩)
  rw [jobsInsert, if_neg hany]

/-- The startup scan inserts one job per parsed snapshot, each
`completed`, with no capacity check. -/
theorem loadExistingResults_spec :
    ∀ (files : List Snapshot) (st : ManagerState),
      (files.map Snapshot.job_id).Nodup →
      (∀ f ∈ files, f.job_id ∉ st.jobs.map Prod.fst) →
      (loadExistingResults files st).jobs.length = st.jobs.length + files.length ∧
      (loadExistingResults files st).max_jobs = st.max_jobs ∧
      ∀ p ∈ (loadExistingResults files st).jobs,
        p ∈ st.jobs ∨ p.2.status = "completed"
  | [], st, _, _ => ⟨rfl, rfl, fun _ hp => Or.inl hp⟩
  | f :: files, st, hnd, hfresh => by
    rw [List.map_cons, List.nodup_cons] at hnd
    have hstep : loadExistingResults (f :: files) st =
        loadExistingResults files
          ⟨st.jobs ++ [(f.job_id,
            ⟨f.job_id, "completed", 100, f.timestamp, f.timestamp, f.query,
              some f.total_articles, none, some f.articles⟩)],
            st.max_jobs, st.resultFiles, st.snapshots⟩ := by
      rw [loadExistingResults, List.foldl_cons,
        jobsInsert_fresh st.jobs f.job_id _ (hfresh f (List.mem_cons_self _ _))]
      rfl
    have hfresh' : ∀ g ∈ files, g.job_id ∉
        (st.jobs ++ [(f.job_id,
          (⟨f.job_id, "completed", 100, f.timestamp, f.timestamp, f.query,
            some f.total_articles, none, some f.articles⟩ : Job))]).map Prod.fst := by
      intro g hg hmem
      rw [List.map_append, List.mem_append] at hmem
      rcases hmem with hmem | hmem
      · exact hfresh g (List.mem_cons_of_mem _ hg) hmem
      · have : g.job_id = f.job_id := by simpa using hmem
        exact hnd.1 (this ▸ List.mem_map.2 ⟨g, hg, rfl⟩)
    obtain ⟨h1, h2, h3⟩ := loadExistingResults_spec files
      ⟨st.jobs ++ [(f.job_id,
        (⟨f.job_id, "completed", 100, f.timestamp, f.timestamp, f.query,
          some f.total_articles, none, some f.articles⟩ : Job))],
        st.max_jobs, st.resultFiles, st.snapshots⟩ hnd.2 hfresh'
    rw [hstep]
    refine ⟨?_, h2, ?_⟩
    · rw [h1]
      simp only [List.length_append, List.length_cons, List.length_nil,
        List.length_cons]
      omega
    · intro p hp
      rcases h3 p hp with hp' | hp'
      · rcases List.mem_append.1 hp' with hp'' | hp''
        · exact Or.inl hp''
        · right
          have : p = (f.job_id,
              (⟨f.job_id, "completed", 100, f.timestamp, f.timestamp, f.query,
                some f.total_articles, none, some f.articles⟩ : Job)) := by
            simpa using hp''
          rw [this]
      · exact Or.inr hp'

/-- C10: the capacity bound is enforced only by `create_job`: the
startup scan of the results directory inserts one `completed` job per
stored JSON snapshot without any eviction, so immediately after startup
the table can hold more than `max_jobs` jobs. -/
theorem startup_load_ignores_capacity (files : List Snapshot) (max_jobs : Nat)
    (rfiles : List (String × String)) (snaps : List Snapshot)
    (hnd : (files.map Snapshot.job_id).Nodup) :
    (loadExistingResults files ⟨[], max_jobs, rfiles, snaps⟩).jobs.length =
      files.length ∧
    (∀ p ∈ (loadExistingResults files ⟨[], max_jobs, rfiles, snaps⟩).jobs,
      p.2.status = "completed") ∧
    (max_jobs < files.length →
      (loadExistingResults files ⟨[], max_jobs, rfiles, snaps⟩).max_jobs <
        (loadExistingResults files ⟨[], max_jobs, rfiles, snaps⟩).jobs.length) := by
  obtain ⟨h1, h2, h3⟩ := loadExistingResults_spec files ⟨[], max_jobs, rfiles, snaps⟩
    hnd (fun f _ => by simp)
  refine ⟨by rw [h1]; simp, ?_, ?_⟩
  · intro p hp
    rcases h3 p hp with hp' | hp'
    · exact absurd hp' (List.not_mem_nil p)
    · exact hp'
  · intro hover
    rw [h1, h2]
    simpa using hover

theorem startup_load_ignores_capacity_witness :
    (loadExistingResults [⟨"a", "q", 0, 0, []⟩, ⟨"b", "q", 0, 0, []⟩,
        ⟨"c", "q", 0, 0, []⟩] ⟨[], 2, [], []⟩).jobs.length = 3 ∧
    (∀ p ∈ (loadExistingResults [⟨"a", "q", 0, 0, []⟩, ⟨"b", "q", 0, 0, []⟩,
        ⟨"c", "q", 0, 0, []⟩] ⟨[], 2, [], []⟩).jobs, p.2.status = "completed") ∧
    ((2 : Nat) < 3 →
      (loadExistingResults [⟨"a", "q", 0, 0, []⟩, ⟨"b", "q", 0, 0, []⟩,
        ⟨"c", "q", 0, 0, []⟩] ⟨[], 2, [], []⟩).max_jobs <
      (loadExistingResults [⟨"a", "q", 0, 0, []⟩, ⟨"b", "q", 0, 0, []⟩,
        ⟨"c", "q", 0, 0, []⟩] ⟨[], 2, [], []⟩).jobs.length) := by
  have h := startup_load_ignores_capacity
    [⟨"a", "q", 0, 0, []⟩, ⟨"b", "q", 0, 0, []⟩, ⟨"c", "q", 0, 0, []⟩]
    2 [] [] (by decide)
  exact ⟨h.1, h.2.1, h.2.2⟩

/-- With duplicate-free keys, removing one present key shrinks the table
by exactly one. -/
theorem length_filter_remove_key :
    ∀ (jobs : List (String × Job)) (k : String),
      (jobs.map Prod.fst).Nodup → k ∈ jobs.map Prod.fst →
      (jobs.filter (fun p => p.1 ≠ k)).length + 1 = jobs.length
  | [], k, _, hk => absurd hk (List.not_mem_nil k)
  | p :: rest, k, hnd, hk => by
    rw [List.map_cons, List.nodup_cons] at hnd
    rw [List.filter_cons]
    rcases List.mem_cons.1 hk with heq | hk'
    · rw [if_neg (by simp [heq])]
      have hall : rest.filter (fun p => p.1 ≠ k) = rest := by
        rw [List.filter_eq_self]
        intro q hq
        have : q.1 ∈ rest.map Prod.fst := List.mem_map.2 ⟨q, hq, rfl⟩
        simp only [decide_eq_true_eq]
        intro hqk
        exact hnd.1 (heq ▸ hqk ▸ this)
      rw [hall, List.length_cons]
    · have hpk : p.1 ≠ k := by
        intro hpe
        exact hnd.1 (hpe ▸ hk')
      rw [if_pos (by simp [hpk]), List.length_cons, List.length_cons,
        ← length_filter_remove_key rest k hnd.2 hk']

/-- `delete_job` on a present id: the record leaves the table and the
persisted `json`/`csv`/`xlsx` files for that id are gone. -/
theorem deleteJob_spec (st : ManagerState) (k : String)
    (hmem : k ∈ st.jobs.map Prod.fst) :
    (deleteJob st k).jobs = st.jobs.filter (fun p => p.1 ≠ k) ∧
    (deleteJob st k).max_jobs = st.max_jobs ∧
    (k, "json") ∉ (deleteJob st k).resultFiles ∧
    (k, "csv") ∉ (deleteJob st k).resultFiles ∧
    (k, "xlsx") ∉ (deleteJob st k).resultFiles := by
  have hany : st.jobs.any (fun p => p.1 = k) = true := by
    obtain ⟨p, hp, he⟩ := List.mem_map.1 hmem
    exact List.any_eq_true.2 ⟨p, hp, by simp [he]⟩
  rw [deleteJob, if_pos hany]
  refine ⟨rfl, rfl, ?_, ?_, ?_⟩ <;>
  · intro hmem'
    rw [List.mem_filter] at hmem'
    simp at hmem'

/-- C8: `create_job` on a table already at capacity (with a fresh id and
a creation time later than all existing jobs') evicts exactly one job —
one whose creation time is minimal among the existing jobs — leaving the
table at exactly `max_jobs` entries again: the new job and every
non-evicted old job remain, and the evicted job's persisted result files
in all supported formats (json, csv, xlsx) are removed. -/
theorem create_job_eviction (st : ManagerState) (job_id query : String) (now : Nat)
    (hnd : (st.jobs.map Prod.fst).Nodup)
    (hcap : st.jobs.length = st.max_jobs)
    (hpos : 1 ≤ st.max_jobs)
    (hfresh : job_id ∉ st.jobs.map Prod.fst)
    (htimes : ∀ p ∈ st.jobs, p.2.created_at < now) :
    ∃ old ∈ st.jobs,
      (∀ q ∈ st.jobs, old.2.created_at ≤ q.2.created_at) ∧
      (createJob st job_id query now).jobs.length = st.max_jobs ∧
      (createJob st job_id query now).jobs =
        (st.jobs ++ [(job_id, (⟨job_id, "created", 0, now, now, query,
          none, none, none⟩ : Job))]).filter (fun p => p.1 ≠ old.1) ∧
      (∀ q ∈ st.jobs, q.1 ≠ old.1 → q ∈ (createJob st job_id query now).jobs) ∧
      (job_id, (⟨job_id, "created", 0, now, now, query, none, none, none⟩ : Job))
        ∈ (createJob st job_id query now).jobs ∧
      old.1 ∉ (createJob st job_id query now).jobs.map Prod.fst ∧
      (old.1, "json") ∉ (createJob st job_id query now).resultFiles ∧
      (old.1, "csv") ∉ (createJob st job_id query now).resultFiles ∧
      (old.1, "xlsx") ∉ (createJob st job_id query now).resultFiles := by
  set newJob : Job := ⟨job_id, "created", 0, now, now, query, none, none, none⟩
    with hnewJob
  set jobs1 : List (String × Job) := st.jobs ++ [(job_id, newJob)] with hjobs1
  have hlen1 : jobs1.length = st.max_jobs + 1 := by
    rw [hjobs1, List.length_append, hcap]
    rfl
  have hcreate : createJob st job_id query now =
      cleanupOldJobs ⟨jobs1, st.max_jobs, st.resultFiles, st.snapshots⟩ := by
    rw [createJob]
    rw [jobsInsert_fresh st.jobs job_id newJob hfresh]
    rw [if_pos (by show st.max_jobs < jobs1.length; rw [hlen1]; omega)]
  have hperm : (jobs1.insertionSort createdLE).Perm jobs1 :=
    List.perm_insertionSort createdLE jobs1
  have hsortedlen : (jobs1.insertionSort createdLE).length = st.max_jobs + 1 := by
    rw [hperm.length_eq, hlen1]
  obtain ⟨hd, tl, hht⟩ : ∃ hd tl, jobs1.insertionSort createdLE = hd :: tl := by
    cases hs : jobs1.insertionSort createdLE with
    | nil =>
      rw [hs] at hsortedlen
      simp at hsortedlen
    | cons hd tl => exact ⟨hd, tl, rfl⟩
  have hsortedSorted : (jobs1.insertionSort createdLE).Sorted createdLE :=
    List.sorted_insertionSort createdLE jobs1
  have hmin : ∀ q ∈ jobs1, hd.2.created_at ≤ q.2.created_at := by
    intro q hq
    have hq' : q ∈ jobs1.insertionSort createdLE := hperm.mem_iff.2 hq
    rw [hht] at hq'
    rcases List.mem_cons.1 hq' with rfl | hq'
    · exact Nat.le_refl _
    · rw [hht] at hsortedSorted
      exact List.rel_of_sorted_cons hsortedSorted q hq'
  have hhd_mem1 : hd ∈ jobs1 :=
    hperm.mem_iff.1 (hht ▸ List.mem_cons_self hd tl)
  have hhd_old : hd ∈ st.jobs := by
    rcases List.mem_append.1 hhd_mem1 with h | h
    · exact h
    · exfalso
      rw [List.mem_singleton] at h
      obtain ⟨q, hq⟩ : ∃ q, q ∈ st.jobs := by
        cases hj : st.jobs with
        | nil =>
          rw [hj] at hcap
          simp at hcap
          omega
        | cons a l => exact ⟨a, hj ▸ List.mem_cons_self a l⟩
      have h1 : hd.2.created_at ≤ q.2.created_at :=
        hmin q (List.mem_append.2 (Or.inl hq))
      have h2 := htimes q hq
      rw [h] at h1
      have h1' : now ≤ q.2.created_at := h1
      omega
  have hnd1 : (jobs1.map Prod.fst).Nodup := by
    rw [hjobs1, List.map_append, List.nodup_append]
    refine ⟨hnd, List.nodup_singleton _, ?_⟩
    intro a ha hb
    have : a = job_id := by simpa using hb
    exact hfresh (this ▸ ha)
  have hhd_key : hd.1 ∈ jobs1.map Prod.fst := List.mem_map.2 ⟨hd, hhd_mem1, rfl⟩
  have hhd_ne_new : job_id ≠ hd.1 := by
    intro he
    exact hfresh (he ▸ List.mem_map.2 ⟨hd, hhd_old, rfl⟩)
  have hcleanup : cleanupOldJobs ⟨jobs1, st.max_jobs, st.resultFiles, st.snapshots⟩ =
      deleteJob ⟨jobs1, st.max_jobs, st.resultFiles, st.snapshots⟩ hd.1 := by
    rw [cleanupOldJobs]
    rw [if_neg (by show ¬jobs1.length ≤ st.max_jobs; rw [hlen1]; omega)]
    have htake : (jobs1.insertionSort createdLE).take (jobs1.length - st.max_jobs)
        = [hd] := by
      rw [hht, hlen1]
      simp
    show ((jobs1.insertionSort createdLE).take (jobs1.length - st.max_jobs)).foldl
        (fun s p => deleteJob s p.1) _ = _
    rw [htake, List.foldl_cons, List.foldl_nil]
  obtain ⟨hdel_jobs, hdel_max, hdel_json, hdel_csv, hdel_xlsx⟩ :=
    deleteJob_spec ⟨jobs1, st.max_jobs, st.resultFiles, st.snapshots⟩ hd.1 hhd_key
  have hres : (createJob st job_id query now) =
      deleteJob ⟨jobs1, st.max_jobs, st.resultFiles, st.snapshots⟩ hd.1 := by
    rw [hcreate, hcleanup]
  refine ⟨hd, hhd_old, ?_, ?_, ?_, ?_, ?_, ?_, ?_, ?_, ?_⟩
  · intro q hq
    exact hmin q (List.mem_append.2 (Or.inl hq))
  · rw [hres, hdel_jobs]
    show (jobs1.filter (fun p => p.1 ≠ hd.1)).length = st.max_jobs
    have := length_filter_remove_key jobs1 hd.1 hnd1 hhd_key
    omega
  · rw [hres, hdel_jobs]
  · intro q hq hqne
    rw [hres, hdel_jobs, List.mem_filter]
    exact ⟨List.mem_append.2 (Or.inl hq), by simp [hqne]⟩
  · rw [hres, hdel_jobs, List.mem_filter]
    constructor
    · exact List.mem_append.2 (Or.inr (List.mem_cons_self _ _))
    · simp [hhd_ne_new]
  · rw [hres, hdel_jobs]
    intro hmem'
    obtain ⟨p, hp, hpe⟩ := List.mem_map.1 hmem'
    rw [List.mem_filter] at hp
    have : ¬p.1 = hd.1 := by simpa using hp.2
    exact this hpe
  · rw [hres]
    exact hdel_json
  · rw [hres]
    exact hdel_csv
  · rw [hres]
    exact hdel_xlsx

theorem create_job_eviction_witness :
    ∃ old ∈ [("a", (⟨"a", "created", 0, 0, 0, "qa", none, none, none⟩ : Job))],
      (∀ q ∈ [("a", (⟨"a", "created", 0, 0, 0, "qa", none, none, none⟩ : Job))],
        old.2.created_at ≤ q.2.created_at) ∧
      (createJob ⟨[("a", ⟨"a", "created", 0, 0, 0, "qa", none, none, none⟩)], 1,
        [("a", "json"), ("a", "csv"), ("a", "xlsx")], []⟩
        "b" "qb" 5).jobs.length = 1 ∧
      (createJob ⟨[("a", ⟨"a", "created", 0, 0, 0, "qa", none, none, none⟩)], 1,
        [("a", "json"), ("a", "csv"), ("a", "xlsx")], []⟩ "b" "qb" 5).jobs =
        ([("a", (⟨"a", "created", 0, 0, 0, "qa", none, none, none⟩ : Job))] ++
          [("b", (⟨"b", "created", 0, 5, 5, "qb", none, none, none⟩ : Job))]).filter
          (fun p => p.1 ≠ old.1) ∧
      (∀ q ∈ [("a", (⟨"a", "created", 0, 0, 0, "qa", none, none, none⟩ : Job))],
        q.1 ≠ old.1 →
        q ∈ (createJob ⟨[("a", ⟨"a", "created", 0, 0, 0, "qa", none, none, none⟩)],
          1, [("a", "json"), ("a", "csv"), ("a", "xlsx")], []⟩ "b" "qb" 5).jobs) ∧
      ("b", (⟨"b", "created", 0, 5, 5, "qb", none, none, none⟩ : Job)) ∈
        (createJob ⟨[("a", ⟨"a", "created", 0, 0, 0, "qa", none, none, none⟩)], 1,
          [("a", "json"), ("a", "csv"), ("a", "xlsx")], []⟩ "b" "qb" 5).jobs ∧
      old.1 ∉ (createJob ⟨[("a", ⟨"a", "created", 0, 0, 0, "qa", none, none, none⟩)],
        1, [("a", "json"), ("a", "csv"), ("a", "xlsx")], []⟩
        "b" "qb" 5).jobs.map Prod.fst ∧
      (old.1, "json") ∉ (createJob
        ⟨[("a", ⟨"a", "created", 0, 0, 0, "qa", none, none, none⟩)], 1,
          [("a", "json"), ("a", "csv"), ("a", "xlsx")], []⟩ "b" "qb" 5).resultFiles ∧
      (old.1, "csv") ∉ (createJob
        ⟨[("a", ⟨"a", "created", 0, 0, 0, "qa", none, none, none⟩)], 1,
          [("a", "json"), ("a", "csv"), ("a", "xlsx")], []⟩ "b" "qb" 5).resultFiles ∧
      (old.1, "xlsx") ∉ (createJob
        ⟨[("a", ⟨"a", "created", 0, 0, 0, "qa", none, none, none⟩)], 1,
          [("a", "json"), ("a", "csv"), ("a", "xlsx")], []⟩ "b" "qb" 5).resultFiles :=
  create_job_eviction
    ⟨[("a", ⟨"a", "created", 0, 0, 0, "qa", none, none, none⟩)], 1,
      [("a", "json"), ("a", "csv"), ("a", "xlsx")], []⟩
    "b" "qb" 5 (by decide) rfl (by decide) (by decide) (by decide)
